import Mathlib

/-!
Verification of `multi_feed_parser.py` (multi-feed RSS news summarizer).

Shallow embedding conventions:
* Python `str` is modelled as `List Char` (`Str` below); `str.strip()` is
  `pyStrip` (trimming the ASCII whitespace characters that matter for the
  inputs at hand), `str.split('\n')` is `splitChar '\n'`.
* The OpenAI client is an external effect; it is modelled as an oracle giving
  the outcome of each service request: `none` means the request raised an
  exception, `some none` means it returned with `message.content = None`,
  `some (some s)` means it returned content `s`.
* Exceptions are modelled with `Except PyErr`; a Python `try/except` block is
  an explicit `match` on the `Except` value.
* Functions that issue service requests also return the number of requests
  issued, so that claims about "no request is made" are statable.
* `hashlib.md5(...).hexdigest()` is an uninterpreted parameter
  `md5hex : Str → Str`; what the code controls is the string fed to it.
* `datetime` instants are integers (microsecond resolution, like
  `datetime.timedelta`); `datetime.fromisoformat` is an uninterpreted parser
  `parseIso : Str → Option Int` (`none` = the call raises `ValueError`).
-/

abbrev Str := List Char

/-- Python `str` truthiness / emptiness helpers: default whitespace stripped by
`str.strip()` (space, tab, newline, carriage return, vertical tab, form feed;
the inputs of interest are ASCII). -/
def pyIsSpace (c : Char) : Bool :=
  c = ' ' || c = '\t' || c = '\n' || c = '\r' || c = Char.ofNat 11 || c = Char.ofNat 12

/-- `s.strip()`: drop whitespace from both ends. -/
def pyStrip (s : Str) : Str :=
  ((s.dropWhile pyIsSpace).reverse.dropWhile pyIsSpace).reverse

/-- `s.split(sep)` for a one-character separator: always returns at least one
(possibly empty) piece, like Python's `split`. -/
def splitChar (sep : Char) : Str → List Str
  | [] => [[]]
  | c :: cs =>
    if c = sep then [] :: splitChar sep cs
    else
      match splitChar sep cs with
      | [] => [[c]]
      | h :: t => (c :: h) :: t

/-- The characters after the first `'.'` (used for `line.split('.', 1)[-1]`
when `'.' in line` holds). -/
def afterFirstDot : Str → Str
  | [] => []
  | c :: cs => if c = '.' then cs else afterFirstDot cs

/-- Exceptions that can propagate in the embedded code. -/
inductive PyErr where
  | apiError
  | valueError
  | keyError
  | feedError
  | entryError
  | retryError
  deriving DecidableEq

/-! ## Batch-response parsing (`parse_batch_summaries`, lines 310-329) -/

/-- The test `line and (line[0].isdigit() or line.startswith(('1.', '2.',
'3.')))` that starts a new numbered item. -/
def isNumberedLine : Str → Bool
  | [] => false
  | l@(c :: _) =>
    c.isDigit || List.isPrefixOf ['1', '.'] l || List.isPrefixOf ['2', '.'] l
      || List.isPrefixOf ['3', '.'] l

/-- `line.split('.', 1)[-1].strip() if '.' in line else line`. -/
def removeNumberMark (line : Str) : Str :=
  if '.' ∈ line then pyStrip (afterFirstDot line) else line

/-- `if current_summary: summaries.append(current_summary.strip())` applied to
the loop state `(summaries, current_summary)`. -/
def flushState (st : List Str × Str) : List Str :=
  if st.2 = [] then st.1 else st.1 ++ [pyStrip st.2]

/-- One iteration of the `for line in lines` loop of `parse_batch_summaries`. -/
def parseStep (st : List Str × Str) (rawLine : Str) : List Str × Str :=
  let line := pyStrip rawLine
  if isNumberedLine line then (flushState st, removeNumberMark line)
  else if st.2 ≠ [] ∧ line ≠ [] then (st.1, st.2 ++ ' ' :: line)
  else st

/-- `parse_batch_summaries(text, expected_count)` (lines 310-329). -/
def parse_batch_summaries (text : Str) (expected_count : Nat) : List Str :=
  (flushState ((splitChar '\n' (pyStrip text)).foldl parseStep ([], []))).take
    expected_count

/-! ## Articles and the batch summarizer (lines 101-111, 255-358) -/

/-- The `Article` dataclass (lines 101-111). -/
structure Article where
  title : Str
  link : Str
  content : Str
  source : Str
  category : Str
  published : Option Str := none
  summary : Option Str := none
  content_hash : Option Str := none
  fetch_date : Option Str := none
  deriving DecidableEq

def sentinelNotAvailable : Str := "[Summary not available]".toList

def sentinelFailed : Str := "[Summary failed]".toList

/-- `article.summary = summary.strip() if summary else "[Summary not
available]"` under the per-article `try/except` of
`summarize_articles_individually`; the oracle value is the outcome of the
single-article request (`none` = the request raised). -/
def indivResult : Option (Option Str) → Str
  | none => sentinelFailed
  | some none => sentinelNotAvailable
  | some (some s) => if s = [] then sentinelNotAvailable else pyStrip s

/-- `for i, article in enumerate(articles): article.summary = f(i)`. -/
def assignSummaries : List Article → (Nat → Str) → Nat → List Article
  | [], _, _ => []
  | a :: rest, f, i => { a with summary := some (f i) } :: assignSummaries rest f (i + 1)

/-- `summarize_articles_individually` (lines 331-358): one request per article,
each under its own `try/except`; also returns the number of requests issued. -/
def summarize_articles_individually (articles : List Article)
    (indiv : Nat → Option (Option Str)) : List Article × Nat :=
  (assignSummaries articles (fun i => indivResult (indiv i)) 0, articles.length)

/-- The `try` block of `summarize_articles_batch` (lines 277-303): the
`client.chat.completions.create` call, the `if not summary_text: raise
ValueError` check, parsing, and the positional assignment loop with the
`"[Summary not available]"` default.  The `Nat` in the `ok` result is the one
batch request that was issued. -/
def batchTry (articles : List Article) (attemptContent : Option (Option Str)) :
    Except PyErr (List Article × Nat) :=
  match attemptContent with
  | none => Except.error PyErr.apiError
  | some none => Except.error PyErr.valueError
  | some (some summary_text) =>
    if summary_text = [] then Except.error PyErr.valueError
    else
      Except.ok
        (assignSummaries articles
          (fun i =>
            (parse_batch_summaries summary_text articles.length).getD i
              sentinelNotAvailable)
          0, 1)

/-- The undecorated body of `summarize_articles_batch` (lines 256-308): early
return on an empty list, otherwise the `try` block with its catch-all
`except`, which falls back to `summarize_articles_individually`.  Every
exception is handled here, so the body never raises. -/
def summarize_articles_batch_body (articles : List Article)
    (attemptContent : Option (Option Str)) (indiv : Nat → Option (Option Str)) :
    List Article × Nat :=
  if articles.isEmpty then (articles, 0)
  else
    match batchTry articles attemptContent with
    | Except.ok r => r
    | Except.error _ =>
      let fb := summarize_articles_individually articles indiv
      (fb.1, 1 + fb.2)

/-- `stop_after_attempt(3)` (line 255). -/
def stopAfterAttemptCount : Nat := 3

/-- The `tenacity.retry` loop: call the wrapped function; if the call raises,
retry (with backoff, irrelevant to the values computed) until the attempt
ceiling; also returns how many attempts were made.  `i` is the 0-based index
of the current attempt, `fuel` the number of attempts still allowed. -/
def tenacityGo {α : Type} (call : Nat → Except PyErr α) :
    Nat → Nat → Except PyErr α × Nat
  | i, 0 => (Except.error PyErr.retryError, i)
  | i, fuel + 1 =>
    match call i with
    | Except.ok a => (Except.ok a, i + 1)
    | Except.error e =>
      if fuel = 0 then (Except.error e, i + 1) else tenacityGo call (i + 1) fuel

def tenacityRetry {α : Type} (maxAttempts : Nat) (call : Nat → Except PyErr α) :
    Except PyErr α × Nat :=
  tenacityGo call 0 maxAttempts

/-- `summarize_articles_batch` as callers see it: the body wrapped in the
`@retry(stop=stop_after_attempt(3), ...)` decorator (line 255).  `attempts i`
is the service outcome the `i`-th attempt would observe; the body never raises
(its `except` is a catch-all), so the decorator returns after one attempt.
Result: (what the call returns or raises, number of attempts made). -/
def summarize_articles_batch (articles : List Article)
    (attempts : Nat → Option (Option Str)) (indiv : Nat → Option (Option Str)) :
    Except PyErr (List Article × Nat) × Nat :=
  tenacityRetry stopAfterAttemptCount
    (fun i => Except.ok (summarize_articles_batch_body articles (attempts i) indiv))

/-! ## SmartCache (lines 113-165) -/

/-- A value of the cache dict: the entries written by `set_summary` have all
three keys; entries read back from disk may lack some. -/
structure CacheEntry where
  summary : Option Str := none
  fetch_date : Option Str := none
  title : Option Str := none
  deriving DecidableEq

def CACHE_EXPIRY_DAYS : Nat := 7

/-- `timedelta(days=d)` in microseconds. -/
def timedeltaDays (d : Nat) : Int := (d : Int) * 86400000000

/-- The `for hash_key, entry in raw_cache.items()` cleaning loop of
`load_cache` (lines 133-137): skip entries without `'fetch_date'`, parse the
date (a parse failure raises, aborting the whole loop: result `none`), keep
the entry only when `fetch_date > cutoff_date`. -/
def cleanEntries (parseIso : Str → Option Int) (cutoff : Int) :
    List (Str × CacheEntry) → Option (List (Str × CacheEntry))
  | [] => some []
  | (k, e) :: rest =>
    match e.fetch_date with
    | none => cleanEntries parseIso cutoff rest
    | some s =>
      match parseIso s with
      | none => none
      | some d =>
        (cleanEntries parseIso cutoff rest).map
          (fun r => if cutoff < d then (k, e) :: r else r)

/-- `SmartCache.load_cache` (lines 120-144).  `fileExists` models
`Path(self.cache_file).exists()`; `raw` is the result of `json.load`
(`none` = the read or parse raised); any exception inside the `try` makes the
whole load return `{}`. -/
def load_cache (fileExists : Bool) (raw : Option (List (Str × CacheEntry)))
    (parseIso : Str → Option Int) (now : Int) : List (Str × CacheEntry) :=
  if !fileExists then []
  else
    match raw with
    | none => []
    | some entries =>
      match cleanEntries parseIso (now - timedeltaDays CACHE_EXPIRY_DAYS) entries with
      | none => []
      | some cleaned => cleaned

/-- Python dict assignment `d[k] = v` on an association list (existing key:
value replaced in place; new key: appended). -/
def dictSet : List (Str × CacheEntry) → Str → CacheEntry → List (Str × CacheEntry)
  | [], k, v => [(k, v)]
  | (k', v') :: rest, k, v =>
    if k' = k then (k, v) :: rest else (k', v') :: dictSet rest k v

/-- Python `d.get(k)` on an association list. -/
def dictGet : List (Str × CacheEntry) → Str → Option CacheEntry
  | [], _ => none
  | (k', v') :: rest, k => if k' = k then some v' else dictGet rest k

/-- `SmartCache.set_summary` (lines 151-157): store summary, current time, and
the first 100 characters of the title. -/
def set_summary (cache : List (Str × CacheEntry)) (contentHash summary article_title : Str)
    (now : Str) : List (Str × CacheEntry) :=
  dictSet cache contentHash
    { summary := some summary, fetch_date := some now, title := some (article_title.take 100) }

/-- `SmartCache.get_summary` (lines 146-149): `entry['summary'] if entry else
None`; the subscript raises `KeyError` on an entry without a `'summary'` key. -/
def get_summary (cache : List (Str × CacheEntry)) (contentHash : Str) :
    Except PyErr (Option Str) :=
  match dictGet cache contentHash with
  | none => Except.ok none
  | some entry =>
    match entry.summary with
    | some s => Except.ok (some s)
    | none => Except.error PyErr.keyError

/-! ## Content hashing and feed fetching (lines 167-253) -/

/-- The string fed to the hash at line 193: `f"{title}{article_text}"`. -/
def contentHashInput (title article_text : Str) : Str := title ++ article_text

/-- `hashlib.md5(f"{title}{article_text}".encode()).hexdigest()` with `md5hex`
uninterpreted. -/
def content_hash (md5hex : Str → Str) (title article_text : Str) : Str :=
  md5hex (contentHashInput title article_text)

/-- The older `fetch_rss_articles` variant (unnamed part_000, lines 79-80)
hashes the article text alone: `hashlib.md5(article_text.encode())`. -/
def rss_content_hash (md5hex : Str → Str) (article_text : Str) : Str :=
  md5hex article_text

/-- The outcome of `requests.get` in `extract_article_content`: status flag
plus the text of the first content selector exceeding 200 characters, if any
(the BeautifulSoup selector search is modelled by this oracle field). -/
structure HttpResp where
  ok : Bool
  longText : Option Str
  deriving DecidableEq

/-- The effect oracle for one `extract_article_content` call: `error` = the
request (or parsing) raised. -/
structure ExtractOracle where
  requestResult : Except PyErr HttpResp

/-- `extract_article_content` (lines 218-253): any failure, bad status, or
absence of substantial selector text returns the RSS fallback summary. -/
def extract_article_content (oracle : ExtractOracle) (fallback_summary : Str) : Str :=
  match oracle.requestResult with
  | Except.error _ => fallback_summary
  | Except.ok resp =>
    if !resp.ok then fallback_summary
    else
      match resp.longText with
      | some t => t
      | none => fallback_summary

/-- One feedparser entry; `none` models a missing attribute, read through
`getattr(entry, attr, default)`. -/
structure RawFeedEntry where
  link : Option Str := none
  title : Option Str := none
  summary : Option Str := none
  published : Option Str := none

def pyGetattr (v : Option Str) (dflt : Str) : Str := v.getD dflt

structure ParsedFeed where
  entries : List RawFeedEntry

/-- One value of `FEEDS_CONFIG` (all keys present, as in the literal). -/
structure FeedConfig where
  url : Str
  max_articles : Nat
  category : Str

/-- The body of the per-entry loop of `fetch_feed_articles` (lines 180-209):
`entryErr` injects an exception anywhere in the entry block (the code guards
it with `try/except ... continue`); `ok none` is the `continue` for entries
without title or link. -/
def processEntry (e : RawFeedEntry) (ex : ExtractOracle) (entryErr : Option PyErr)
    (md5hex : Str → Str) (now : Str) (feed_name category : Str) :
    Except PyErr (Option Article) :=
  match entryErr with
  | some err => Except.error err
  | none =>
    let link := pyGetattr e.link []
    let title := pyGetattr e.title []
    let summ := pyGetattr e.summary []
    if title = [] ∨ link = [] then Except.ok none
    else
      let article_text := extract_article_content ex summ
      Except.ok (some
        { title := title, link := link, content := article_text,
          source := feed_name, category := category, published := e.published,
          summary := none,
          content_hash := some (content_hash md5hex title article_text),
          fetch_date := some now })

/-- The `for entry in entries` loop: a raised entry is logged and skipped
(`continue`), as is an entry without essential data. -/
def collectArticles (feed_name category : Str) (md5hex : Str → Str) (now : Str)
    (oracles : Nat → ExtractOracle × Option PyErr) :
    List RawFeedEntry → Nat → List Article
  | [], _ => []
  | e :: rest, i =>
    match processEntry e (oracles i).1 (oracles i).2 md5hex now feed_name category with
    | Except.error _ => collectArticles feed_name category md5hex now oracles rest (i + 1)
    | Except.ok none => collectArticles feed_name category md5hex now oracles rest (i + 1)
    | Except.ok (some a) =>
      a :: collectArticles feed_name category md5hex now oracles rest (i + 1)

/-- `fetch_feed_articles` (lines 167-216) as callers observe it: the outer
`try/except` turns any failure of `feedparser.parse` (oracle `parseResult`)
into an empty list; an empty feed returns an empty list; entries beyond
`max_articles` are dropped. -/
def fetch_feed_articles (feed_name : Str) (cfg : FeedConfig)
    (parseResult : Except PyErr ParsedFeed)
    (oracles : Nat → ExtractOracle × Option PyErr) (md5hex : Str → Str)
    (now : Str) : Except PyErr (List Article) :=
  match parseResult with
  | Except.error _ => Except.ok []
  | Except.ok feed =>
    if feed.entries.isEmpty then Except.ok []
    else
      Except.ok
        (collectArticles feed_name cfg.category md5hex now oracles
          (feed.entries.take cfg.max_articles) 0)

/-! ## Well-formed batch responses (specification side of claim C3)

A well-formed response consists of items numbered `1..N` in order: item `i`
begins on a line `"{i}. {text}"` and may be followed by continuation lines
that do not start with a digit.  The definitions below build such a response
text from a list of items `(headText, continuationLines)`. -/

def digitChar (d : Nat) : Char := Char.ofNat (48 + d)

/-- The decimal digit characters of `n` (most significant first). -/
def natDigits (n : Nat) : Str := ((Nat.digits 10 n).reverse).map digitChar

/-- A string whose first character exists and is not whitespace. -/
def headNotSpace : Str → Bool
  | [] => false
  | c :: _ => !pyIsSpace c

/-- A non-empty string with no leading and no trailing whitespace (so that
`strip()` leaves it unchanged). -/
def cleanStr (s : Str) : Bool := headNotSpace s && headNotSpace s.reverse

/-- A string that does not start with a digit. -/
def notDigitStart : Str → Bool
  | [] => true
  | c :: _ => !c.isDigit

/-- A usable continuation line: clean, single-line, not starting with a
digit. -/
def goodCont (s : Str) : Prop :=
  cleanStr s = true ∧ '\n' ∉ s ∧ notDigitStart s = true

/-- Well-formed item list: each item supplies clean single-line head text and
good continuation lines. -/
def wfItems (items : List (Str × List Str)) : Prop :=
  ∀ it ∈ items, (cleanStr it.1 = true ∧ '\n' ∉ it.1) ∧ ∀ c ∈ it.2, goodCont c

/-- The continuation lines of an item, as the parser joins them (each prefixed
with a single space). -/
def joinConts (conts : List Str) : Str := (conts.map (fun c => ' ' :: c)).flatten

/-- The full text of one item: head text with continuation lines joined. -/
def itemText (it : Str × List Str) : Str := it.1 ++ joinConts it.2

/-- The lines of item number `k`: the numbered head line `"{k}. {text}"`
followed by the continuation lines. -/
def renderItem (k : Nat) (it : Str × List Str) : List Str :=
  (natDigits k ++ '.' :: ' ' :: it.1) :: it.2

/-- The lines of items numbered `k, k+1, ...` in order. -/
def renderItems (k : Nat) : List (Str × List Str) → List Str
  | [] => []
  | it :: rest => renderItem k it ++ renderItems (k + 1) rest

/-- Join lines with newlines (inverse of `splitChar '\n'` on newline-free
lines). -/
def intercalateNL : List Str → Str
  | [] => []
  | l :: rest => l ++ (rest.map (fun m => '\n' :: m)).flatten

/-- A whole well-formed batch response: items numbered `1..N` in order. -/
def renderText (items : List (Str × List Str)) : Str :=
  intercalateNL (renderItems 1 items)

instance (s : Str) : Decidable (goodCont s) := by
  unfold goodCont; infer_instance

instance (items : List (Str × List Str)) : Decidable (wfItems items) := by
  unfold wfItems; infer_instance

/-! ## Concrete sample data used by witnesses and counterexamples -/

def c3Items : List (Str × List Str) :=
  [("First summary.".toList, ["continued line".toList]), ("Second".toList, [])]

def c4Article : Article :=
  { title := "Quantum breakthrough".toList, link := "http://example.org/a".toList,
    content := "Article body".toList, source := "science_daily".toList,
    category := "Science".toList }

/-- First batch attempt raises; a second attempt would have returned a usable
response — but the code never makes it. -/
def c4Attempts : Nat → Option (Option Str) :=
  fun i => if i = 0 then none else some (some "1. A fine summary".toList)

def c4Indiv : Nat → Option (Option Str) := fun _ => none

def c2ArticleA : Article :=
  { title := "Alpha".toList, link := "http://example.org/1".toList,
    content := "Body one".toList, source := "nature_news".toList,
    category := "Research".toList }

def c2ArticleB : Article :=
  { title := "Beta".toList, link := "http://example.org/2".toList,
    content := "Body two".toList, source := "nature_news".toList,
    category := "Research".toList }

/-- A batch response with a single numbered item for a two-article chunk. -/
def c2Response : Str := "1. Single parsed summary".toList

def c2Attempts : Nat → Option (Option Str) := fun _ => some (some c2Response)

/-- The individual-call service would answer; the point is that it is never
asked. -/
def c2Indiv : Nat → Option (Option Str) :=
  fun _ => some (some "Individual summary".toList)

def c6Entry : CacheEntry :=
  { summary := some "Cached summary".toList,
    fetch_date := some "2026-10-10T00:00:00".toList, title := some "T".toList }

def c6Parse : Str → Option Int :=
  fun s => if s = "2026-10-10T00:00:00".toList then some 1 else none

def c10BadEntry : CacheEntry :=
  { summary := some "S".toList, fetch_date := some "garbage".toList }

def c10Parse : Str → Option Int := fun _ => none

def c7Config : FeedConfig :=
  { url := "https://www.sciencedaily.com/rss/all.xml".toList, max_articles := 10,
    category := "Science".toList }

def c7Oracles : Nat → ExtractOracle × Option PyErr :=
  fun _ => (⟨Except.error PyErr.apiError⟩, none)

/-! ## Helper lemmas -/

lemma assignSummaries_length (l : List Article) (f : Nat → Str) (i : Nat) :
    (assignSummaries l f i).length = l.length := by
  induction l generalizing i with
  | nil => rfl
  | cons a rest ih => simp [assignSummaries, ih]

lemma assignSummaries_isSome {l : List Article} {f : Nat → Str} {i : Nat} {a : Article}
    (h : a ∈ assignSummaries l f i) : a.summary.isSome = true := by
  induction l generalizing i with
  | nil => cases h
  | cons b rest ih =>
    rcases List.mem_cons.mp h with rfl | h'
    · rfl
    · exact ih h'

lemma assignSummaries_map (l : List Article) (f : Nat → Str) (i : Nat) :
    (assignSummaries l f i).map (fun a => a.summary)
      = (List.range l.length).map (fun j => some (f (i + j))) := by
  induction l generalizing i with
  | nil => rfl
  | cons a rest ih =>
    simp only [assignSummaries, List.map_cons, List.length_cons,
      List.range_succ_eq_map (rest.length), ih (i + 1), List.map_map]
    refine congrArg₂ _ (by simp) (List.map_congr_left fun j _ => ?_)
    simp [Function.comp]
    congr 1
    omega

lemma summarize_articles_batch_eq (articles : List Article)
    (attempts indiv : Nat → Option (Option Str)) :
    summarize_articles_batch articles attempts indiv
      = (Except.ok (summarize_articles_batch_body articles (attempts 0) indiv), 1) := rfl

lemma batch_body_len_isSome (articles : List Article)
    (ac : Option (Option Str)) (indiv : Nat → Option (Option Str)) :
    (summarize_articles_batch_body articles ac indiv).1.length = articles.length
    ∧ ∀ a ∈ (summarize_articles_batch_body articles ac indiv).1,
        a.summary.isSome = true := by
  unfold summarize_articles_batch_body
  by_cases h : articles.isEmpty
  · rw [List.isEmpty_iff.mp h]
    simp
  · simp only [h, Bool.false_eq_true, if_false]
    have hind : ∀ a ∈ (summarize_articles_individually articles indiv).1,
        a.summary.isSome = true :=
      fun a ha => assignSummaries_isSome ha
    have hindlen : (summarize_articles_individually articles indiv).1.length
        = articles.length := assignSummaries_length _ _ _
    cases ac with
    | none => exact ⟨hindlen, hind⟩
    | some c =>
      cases c with
      | none => exact ⟨hindlen, hind⟩
      | some s =>
        by_cases hs : s = []
        · simp only [batchTry, hs, if_true]
          exact ⟨hindlen, hind⟩
        · simp only [batchTry, hs, if_false]
          exact ⟨assignSummaries_length _ _ _, fun a ha => assignSummaries_isSome ha⟩

/-- C1: for every list of N un-cached articles and every pattern of chunk- or
item-level service failures, the batch summarizer (through its retry wrapper,
including the individual-call fallback) returns normally with exactly N
articles, each carrying a non-null summary. -/
theorem batch_summarizer_preserves_count_and_summaries
    (articles : List Article) (attempts indiv : Nat → Option (Option Str)) :
    ∃ res reqs,
      (summarize_articles_batch articles attempts indiv).1 = Except.ok (res, reqs)
      ∧ res.length = articles.length
      ∧ ∀ a ∈ res, a.summary.isSome = true := by
  obtain ⟨hlen, hsome⟩ := batch_body_len_isSome articles (attempts 0) indiv
  exact ⟨(summarize_articles_batch_body articles (attempts 0) indiv).1,
    (summarize_articles_batch_body articles (attempts 0) indiv).2, rfl, hlen, hsome⟩

/-- C9: on an empty article list the summarizer returns the empty list
unchanged and issues no service request at all (request count 0; the single
"attempt" is the function call itself, which returns before any request). -/
theorem empty_batch_no_requests (attempts indiv : Nat → Option (Option Str)) :
    summarize_articles_batch [] attempts indiv = (Except.ok ([], 0), 1) := rfl

/-- C4 (code bug): on a chunk whose first batch request raises a transient
error, the call makes exactly one attempt (the catch-all `except` inside the
function swallows the exception before the `@retry` decorator can see it) and
immediately falls back to a per-article call — even though the second attempt
would have returned a perfectly good batch response.  First conjunct: attempt
count 1, result from the individual fallback (2 requests total, summary
`"[Summary failed]"`).  Second conjunct: what the unused second attempt held. -/
theorem retry_never_fires_eval :
    summarize_articles_batch [c4Article] c4Attempts c4Indiv
        = (Except.ok ([{ c4Article with summary := some sentinelFailed }], 2), 1)
      ∧ batchTry [c4Article] (c4Attempts 1)
        = Except.ok ([{ c4Article with summary := some "A fine summary".toList }], 1) :=
  ⟨rfl, rfl⟩

/-- C2 (counterexample): a two-article chunk whose batch response parses to a
single item.  The code issues exactly one request (the batch one — the request
counter stays at 1, so no per-article call is made for anything, although the
individual-call oracle stands ready with "Individual summary"), and assigns a
mix of the parsed summary and the `"[Summary not available]"` sentinel. -/
theorem short_parse_no_fallback_counterexample :
    summarize_articles_batch [c2ArticleA, c2ArticleB] c2Attempts c2Indiv
      = (Except.ok ([{ c2ArticleA with summary := some "Single parsed summary".toList },
                     { c2ArticleB with summary := some sentinelNotAvailable }], 1), 1) := rfl

/-- C2 (amended): whenever the batch request itself succeeds with non-empty
content — in particular when parsing yields fewer items than articles — the
chunk is finished with exactly one service request: position `i` receives the
`i`-th parsed summary when it exists and the `"[Summary not available]"`
sentinel otherwise, and no per-article request is ever made.  The per-article
fallback runs only when the request fails or returns empty content. -/
theorem short_parse_assigns_sentinels
    (arts : List Article) (attempts indiv : Nat → Option (Option Str)) (s : Str)
    (hne : arts ≠ []) (h0 : attempts 0 = some (some s)) (hs : s ≠ []) :
    ∃ res, summarize_articles_batch arts attempts indiv = (Except.ok (res, 1), 1)
      ∧ res.map (fun a => a.summary)
          = (List.range arts.length).map
              (fun i => some ((parse_batch_summaries s arts.length).getD i
                sentinelNotAvailable)) := by
  rw [summarize_articles_batch_eq]
  unfold summarize_articles_batch_body
  rw [h0]
  have hempty : arts.isEmpty = false := by
    cases arts with
    | nil => exact absurd rfl hne
    | cons a l => rfl
  simp only [hempty, Bool.false_eq_true, if_false, batchTry, hs, if_false]
  refine ⟨_, rfl, ?_⟩
  rw [assignSummaries_map]
  exact List.map_congr_left fun j _ => by simp

theorem short_parse_assigns_sentinels_witness :
    ∃ res, summarize_articles_batch [c2ArticleA, c2ArticleB] c2Attempts c2Indiv
        = (Except.ok (res, 1), 1)
      ∧ res.map (fun a => a.summary)
          = (List.range ([c2ArticleA, c2ArticleB].length)).map
              (fun i => some ((parse_batch_summaries c2Response
                ([c2ArticleA, c2ArticleB].length)).getD i sentinelNotAvailable)) :=
  short_parse_assigns_sentinels [c2ArticleA, c2ArticleB] c2Attempts c2Indiv
    c2Response (by decide) rfl (by decide)

/-- C5 (counterexample): `content_hash` is md5 of the concatenation
`title + content` (line 193), and concatenation is not injective: the distinct
pairs `("ab", "c")` and `("a", "bc")` produce the *same* hash input, hence the
same hash for every hash function — no md5 collision involved. -/
theorem content_hash_concat_counterexample :
    contentHashInput "ab".toList "c".toList = contentHashInput "a".toList "bc".toList
    ∧ ("ab".toList, "c".toList) ≠ ("a".toList, "bc".toList) := by
  constructor
  · rfl
  · decide

/-- C5 (amended): `content_hash` is a deterministic function of the
concatenation `title ++ content`: for an injective digest, two articles get
equal hashes exactly when their concatenations coincide.  Identical
`(title, content)` pairs therefore always hash equal, but distinct pairs are
only separated up to concatenation ambiguity (and md5 collisions). -/
theorem content_hash_determined_by_concat
    (md5hex : Str → Str) (hinj : Function.Injective md5hex)
    (t₁ c₁ t₂ c₂ : Str) :
    content_hash md5hex t₁ c₁ = content_hash md5hex t₂ c₂
      ↔ contentHashInput t₁ c₁ = contentHashInput t₂ c₂ :=
  ⟨fun h => hinj h, fun h => congrArg md5hex h⟩

theorem content_hash_determined_by_concat_witness :
    content_hash (fun s => s) "ab".toList "c".toList
      = content_hash (fun s => s) "a".toList "bc".toList :=
  (content_hash_determined_by_concat (fun s => s) (fun _ _ h => h)
    "ab".toList "c".toList "a".toList "bc".toList).mpr rfl

/-- C7: `fetch_feed_articles` never lets an exception cross its boundary: for
every source configuration and every combination of failures (a raising or
empty feed parse, raising entry processing, failing content extraction) it
returns normally with a (possibly empty) article list, and a failed feed parse
contributes exactly the empty list. -/
theorem fetch_feed_articles_never_raises
    (feed_name : Str) (cfg : FeedConfig) (parseResult : Except PyErr ParsedFeed)
    (oracles : Nat → ExtractOracle × Option PyErr) (md5hex : Str → Str) (now : Str) :
    (∃ l, fetch_feed_articles feed_name cfg parseResult oracles md5hex now
        = Except.ok l)
    ∧ (∀ err, parseResult = Except.error err →
        fetch_feed_articles feed_name cfg parseResult oracles md5hex now
          = Except.ok []) := by
  constructor
  · cases parseResult with
    | error e => exact ⟨[], rfl⟩
    | ok feed =>
      by_cases h : feed.entries.isEmpty
      · exact ⟨[], by simp [fetch_feed_articles, h]⟩
      · refine ⟨collectArticles feed_name cfg.category md5hex now oracles
          (feed.entries.take cfg.max_articles) 0, ?_⟩
        simp [fetch_feed_articles, h]
  · intro err herr
    subst herr
    rfl

theorem fetch_feed_articles_never_raises_witness :
    fetch_feed_articles "science_daily".toList c7Config
        (Except.error PyErr.feedError) c7Oracles (fun s => s)
        "2026-10-12T00:00:00".toList
      = Except.ok [] :=
  (fetch_feed_articles_never_raises "science_daily".toList c7Config
    (Except.error PyErr.feedError) c7Oracles (fun s => s)
    "2026-10-12T00:00:00".toList).2 PyErr.feedError rfl

lemma dictGet_dictSet (cache : List (Str × CacheEntry)) (k : Str) (v : CacheEntry) :
    dictGet (dictSet cache k v) k = some v := by
  induction cache with
  | nil => simp [dictSet, dictGet]
  | cons p rest ih =>
    obtain ⟨k', v'⟩ := p
    by_cases hk : k' = k
    · simp [dictSet, hk, dictGet]
    · simp [dictSet, hk, dictGet, ih]

/-- C8: reading a hash immediately after writing it returns the stored
summary: `get_summary` after `set_summary` on the same in-memory cache (no
intervening write, no reload) yields exactly the summary that was stored. -/
theorem get_after_set (cache : List (Str × CacheEntry)) (h s t now : Str) :
    get_summary (set_summary cache h s t now) h = Except.ok (some s) := by
  unfold get_summary set_summary
  rw [dictGet_dictSet]

lemma cleanEntries_mem {p : Str → Option Int} {cutoff : Int} :
    ∀ {entries r}, cleanEntries p cutoff entries = some r →
      ∀ {k e}, (k, e) ∈ r →
        ∃ s d, e.fetch_date = some s ∧ p s = some d ∧ cutoff < d := by
  intro entries
  induction entries with
  | nil =>
    intro r hr k e hm
    simp only [cleanEntries, Option.some.injEq] at hr
    subst hr
    cases hm
  | cons pe rest ih =>
    obtain ⟨k', e'⟩ := pe
    intro r hr k e hm
    simp only [cleanEntries] at hr
    split at hr
    · exact ih hr hm
    · rename_i s hfd
      split at hr
      · cases hr
      · rename_i d hps
        rcases Option.map_eq_some'.mp hr with ⟨r', hrec, rfl⟩
        by_cases hd : cutoff < d
        · rw [if_pos hd] at hm
          rcases List.mem_cons.mp hm with heq | hm'
          · obtain ⟨rfl, rfl⟩ := Prod.mk.injEq .. ▸ heq
            exact ⟨s, d, hfd, hps, hd⟩
          · exact ih hrec hm'
        · rw [if_neg hd] at hm
          exact ih hrec hm

lemma load_cache_mem {fe : Bool} {raw : Option (List (Str × CacheEntry))}
    {p : Str → Option Int} {now : Int} {k : Str} {e : CacheEntry}
    (hm : (k, e) ∈ load_cache fe raw p now) :
    ∃ s d, e.fetch_date = some s ∧ p s = some d ∧
      now - timedeltaDays CACHE_EXPIRY_DAYS < d := by
  unfold load_cache at hm
  split at hm
  · cases hm
  · cases raw with
    | none => cases hm
    | some entries =>
      simp only at hm
      cases hrec : cleanEntries p (now - timedeltaDays CACHE_EXPIRY_DAYS) entries with
      | none => rw [hrec] at hm; cases hm
      | some cleaned =>
        rw [hrec] at hm
        exact cleanEntries_mem hrec hm

/-- C6: the loaded cache contains only entries whose `fetch_date` parses to an
instant strictly newer than `now - TTL` (TTL 7 days); an entry dated exactly
at the `now - TTL` boundary is excluded, since the code keeps an entry only
when `fetch_date > cutoff_date`.  Purging thus happens wholesale at load time:
no expired entry is present in the loaded cache. -/
theorem load_cache_excludes_expired (fe : Bool)
    (raw : Option (List (Str × CacheEntry))) (p : Str → Option Int) (now : Int)
    (k : Str) (e : CacheEntry) :
    ((k, e) ∈ load_cache fe raw p now →
      ∃ s d, e.fetch_date = some s ∧ p s = some d ∧
        now - timedeltaDays CACHE_EXPIRY_DAYS < d)
    ∧ (∀ s, e.fetch_date = some s →
        p s = some (now - timedeltaDays CACHE_EXPIRY_DAYS) →
        (k, e) ∉ load_cache fe raw p now) := by
  refine ⟨fun hm => load_cache_mem hm, fun s hs hp hm => ?_⟩
  obtain ⟨s', d', hs', hp', hd'⟩ := load_cache_mem hm
  rw [hs] at hs'
  obtain rfl : s = s' := Option.some.inj hs'
  rw [hp] at hp'
  obtain rfl : now - timedeltaDays CACHE_EXPIRY_DAYS = d' := Option.some.inj hp'
  exact lt_irrefl _ hd'

theorem load_cache_excludes_expired_witness :
    ∃ s d, c6Entry.fetch_date = some s ∧ c6Parse s = some d ∧
      (0 : Int) - timedeltaDays CACHE_EXPIRY_DAYS < d :=
  (load_cache_excludes_expired true (some [("h".toList, c6Entry)]) c6Parse 0
    "h".toList c6Entry).1 (by decide)

lemma cleanEntries_bad {p : Str → Option Int} {cutoff : Int}
    {entries : List (Str × CacheEntry)} {k : Str} {e : CacheEntry} {s : Str}
    (hmem : (k, e) ∈ entries) (hfd : e.fetch_date = some s) (hps : p s = none) :
    cleanEntries p cutoff entries = none := by
  induction entries with
  | nil => cases hmem
  | cons pe rest ih =>
    obtain ⟨k', e'⟩ := pe
    simp only [cleanEntries]
    rcases List.mem_cons.mp hmem with heq | hmem'
    · obtain ⟨rfl, rfl⟩ := Prod.mk.injEq .. ▸ heq
      split
      · rename_i h1
        rw [hfd] at h1
        cases h1
      · rename_i s' h1
        rw [hfd] at h1
        obtain rfl : s = s' := Option.some.inj h1
        split
        · rfl
        · rename_i d h2
          rw [hps] at h2
          cases h2
    · split
      · exact ih hmem'
      · split
        · rfl
        · rw [ih hmem']
          rfl

/-- C10: after `load_cache` returns, every entry of the result has a
`fetch_date` that parses to an instant strictly newer than `now - TTL`;
persisted entries lacking a `fetch_date` key are silently dropped regardless
of age, and a single entry whose `fetch_date` fails to parse makes the whole
load fall back to the empty cache. -/
theorem load_cache_fetch_date_invariants (fe : Bool)
    (raw : Option (List (Str × CacheEntry))) (p : Str → Option Int) (now : Int) :
    (∀ (k : Str) (e : CacheEntry), e.fetch_date = none →
      (k, e) ∉ load_cache fe raw p now)
    ∧ (∀ entries (k : Str) (e : CacheEntry) (s : Str), raw = some entries →
        (k, e) ∈ entries → e.fetch_date = some s → p s = none →
        load_cache fe raw p now = [])
    ∧ (∀ (k : Str) (e : CacheEntry), (k, e) ∈ load_cache fe raw p now →
        ∃ s d, e.fetch_date = some s ∧ p s = some d ∧
          now - timedeltaDays CACHE_EXPIRY_DAYS < d) := by
  refine ⟨?_, ?_, fun k e hm => load_cache_mem hm⟩
  · intro k e hfd hm
    obtain ⟨s, d, hs, _, _⟩ := load_cache_mem hm
    rw [hfd] at hs
    cases hs
  · intro entries k e s hraw hmem hfd hps
    subst hraw
    unfold load_cache
    cases fe with
    | false => rfl
    | true =>
      simp only [Bool.not_true, Bool.false_eq_true, if_false]
      rw [cleanEntries_bad hmem hfd hps]

theorem load_cache_fetch_date_invariants_witness :
    load_cache true (some [("k".toList, c10BadEntry)]) c10Parse 0 = [] :=
  (load_cache_fetch_date_invariants true (some [("k".toList, c10BadEntry)])
    c10Parse 0).2.1 [("k".toList, c10BadEntry)] "k".toList c10BadEntry
    "garbage".toList rfl (by decide) rfl rfl

/-! ## String lemmas for the well-formed-response theorem (C3) -/

lemma goodCont_iff (s : Str) :
    goodCont s ↔ (cleanStr s = true ∧ '\n' ∉ s ∧ notDigitStart s = true) := Iff.rfl

lemma headNotSpace_ne_nil {s : Str} (h : headNotSpace s = true) : s ≠ [] := by
  cases s with
  | nil => cases h
  | cons c cs => exact List.cons_ne_nil c cs

lemma dropWhile_headNotSpace {s : Str} (h : headNotSpace s = true) :
    s.dropWhile pyIsSpace = s := by
  cases s with
  | nil => rfl
  | cons c cs =>
    have hc : pyIsSpace c = false := by
      simpa [headNotSpace, Bool.not_eq_true'] using h
    simp [List.dropWhile_cons, hc]

lemma cleanStr_parts {s : Str} (h : cleanStr s = true) :
    headNotSpace s = true ∧ headNotSpace s.reverse = true := by
  simpa [cleanStr, Bool.and_eq_true] using h

lemma cleanStr_ne_nil {s : Str} (h : cleanStr s = true) : s ≠ [] :=
  headNotSpace_ne_nil (cleanStr_parts h).1

lemma pyStrip_of_clean {s : Str} (h : cleanStr s = true) : pyStrip s = s := by
  obtain ⟨h1, h2⟩ := cleanStr_parts h
  unfold pyStrip
  rw [dropWhile_headNotSpace h1, dropWhile_headNotSpace h2, List.reverse_reverse]

lemma headNotSpace_append {xs : Str} (ys : Str) (h : xs ≠ []) :
    headNotSpace (xs ++ ys) = headNotSpace xs := by
  cases xs with
  | nil => exact absurd rfl h
  | cons c cs => rfl

lemma cleanStr_append_of {x y : Str} (hx : headNotSpace x = true)
    (hy : headNotSpace y.reverse = true) : cleanStr (x ++ y) = true := by
  have hxne := headNotSpace_ne_nil hx
  have hyne := headNotSpace_ne_nil hy
  unfold cleanStr
  rw [headNotSpace_append _ hxne, List.reverse_append, headNotSpace_append _ hyne,
    hx, hy]
  rfl

lemma headNotSpace_reverse_cons (c0 : Char) {c : Str} (hne : c ≠ [])
    (h : headNotSpace c.reverse = true) :
    headNotSpace (c0 :: c).reverse = true := by
  rw [List.reverse_cons,
    headNotSpace_append _ (mt List.reverse_eq_nil_iff.mp hne)]
  exact h

lemma cleanStr_append_cons (c0 : Char) {x c : Str} (hx : cleanStr x = true)
    (hc : cleanStr c = true) : cleanStr (x ++ c0 :: c) = true :=
  cleanStr_append_of (cleanStr_parts hx).1
    (headNotSpace_reverse_cons c0 (cleanStr_ne_nil hc) (cleanStr_parts hc).2)

lemma joinConts_cons (c : Str) (cs : List Str) :
    joinConts (c :: cs) = (' ' :: c) ++ joinConts cs := by
  simp [joinConts]

lemma cleanStr_joinConts {t : Str} {conts : List Str} (ht : cleanStr t = true)
    (hc : ∀ c ∈ conts, cleanStr c = true) :
    cleanStr (t ++ joinConts conts) = true := by
  induction conts generalizing t with
  | nil => simpa [joinConts] using ht
  | cons c cs ih =>
    rw [joinConts_cons, ← List.append_assoc]
    exact ih (cleanStr_append_cons ' ' ht (hc c (List.mem_cons_self _ _)))
      (fun x hx => hc x (List.mem_cons_of_mem _ hx))

lemma splitChar_ne_nil (sep : Char) (s : Str) : splitChar sep s ≠ [] := by
  induction s with
  | nil => simp [splitChar]
  | cons c cs ih =>
    simp only [splitChar]
    split
    · simp
    · split <;> simp

lemma splitChar_no_sep {sep : Char} {l : Str} (h : sep ∉ l) :
    splitChar sep l = [l] := by
  induction l with
  | nil => rfl
  | cons c cs ih =>
    have hc : ¬(c = sep) := by
      intro heq
      exact h (by rw [heq]; exact List.mem_cons_self _ _)
    have hcs : sep ∉ cs := fun hm => h (List.mem_cons_of_mem _ hm)
    simp only [splitChar, if_neg hc, ih hcs]

lemma splitChar_append_sep {sep : Char} {l : Str} (h : sep ∉ l) (z : Str) :
    splitChar sep (l ++ sep :: z) = l :: splitChar sep z := by
  induction l with
  | nil => simp [splitChar]
  | cons c cs ih =>
    have hc : ¬(c = sep) := by
      intro heq
      exact h (by rw [heq]; exact List.mem_cons_self _ _)
    have hcs : sep ∉ cs := fun hm => h (List.mem_cons_of_mem _ hm)
    simp only [List.cons_append, splitChar, List.append_eq, if_neg hc, ih hcs]

lemma intercalateNL_single (l : Str) : intercalateNL [l] = l := by
  simp [intercalateNL]

lemma intercalateNL_pair (l m : Str) (ms : List Str) :
    intercalateNL (l :: m :: ms) = l ++ '\n' :: intercalateNL (m :: ms) := by
  simp [intercalateNL]

lemma splitChar_intercalateNL :
    ∀ {lines : List Str}, lines ≠ [] → (∀ m ∈ lines, ('\n' : Char) ∉ m) →
      splitChar '\n' (intercalateNL lines) = lines := by
  intro lines
  induction lines with
  | nil => intro h; exact absurd rfl h
  | cons l rest ih =>
    intro _ h
    cases rest with
    | nil =>
      rw [intercalateNL_single]
      exact splitChar_no_sep (h l (List.mem_cons_self _ _))
    | cons m ms =>
      rw [intercalateNL_pair, splitChar_append_sep (h l (List.mem_cons_self _ _)),
        ih (List.cons_ne_nil _ _) (fun x hx => h x (List.mem_cons_of_mem _ hx))]

lemma cleanStr_intercalateNL :
    ∀ {lines : List Str}, lines ≠ [] → (∀ m ∈ lines, cleanStr m = true) →
      cleanStr (intercalateNL lines) = true := by
  intro lines
  induction lines with
  | nil => intro h; exact absurd rfl h
  | cons l rest ih =>
    intro _ h
    cases rest with
    | nil =>
      rw [intercalateNL_single]
      exact h l (List.mem_cons_self _ _)
    | cons m ms =>
      rw [intercalateNL_pair]
      exact cleanStr_append_cons '\n' (h l (List.mem_cons_self _ _))
        (ih (List.cons_ne_nil _ _) (fun x hx => h x (List.mem_cons_of_mem _ hx)))

lemma digitChar_lt_spec {d : Nat} (h : d < 10) :
    (digitChar d).isDigit = true ∧ pyIsSpace (digitChar d) = false
      ∧ digitChar d ≠ '.' ∧ digitChar d ≠ '\n' := by
  interval_cases d <;> exact (by decide)

lemma natDigits_all {n : Nat} : ∀ c ∈ natDigits n,
    c.isDigit = true ∧ pyIsSpace c = false ∧ c ≠ '.' ∧ c ≠ '\n' := by
  intro c hc
  unfold natDigits at hc
  rcases List.mem_map.mp hc with ⟨d, hd, rfl⟩
  exact digitChar_lt_spec (Nat.digits_lt_base (by norm_num) (List.mem_reverse.mp hd))

lemma natDigits_ne_nil {n : Nat} (h : 1 ≤ n) : natDigits n ≠ [] := by
  unfold natDigits
  simp [Nat.digits_ne_nil_iff_ne_zero]
  omega

lemma isNumberedLine_cons {c : Char} (rest : Str) (h : c.isDigit = true) :
    isNumberedLine (c :: rest) = true := by
  simp [isNumberedLine, h]

lemma isNumberedLine_of_notDigit {s : Str} (h : notDigitStart s = true) :
    isNumberedLine s = false := by
  cases s with
  | nil => rfl
  | cons c rest =>
    have hc : c.isDigit = false := by
      simpa [notDigitStart, Bool.not_eq_true'] using h
    have h1 : (('1' : Char) == c) = false :=
      beq_eq_false_iff_ne.mpr (fun he => by subst he; exact absurd hc (by decide))
    have h2 : (('2' : Char) == c) = false :=
      beq_eq_false_iff_ne.mpr (fun he => by subst he; exact absurd hc (by decide))
    have h3 : (('3' : Char) == c) = false :=
      beq_eq_false_iff_ne.mpr (fun he => by subst he; exact absurd hc (by decide))
    simp [isNumberedLine, List.isPrefixOf, hc, h1, h2, h3]

lemma afterFirstDot_append {ds : Str} (h : ∀ c ∈ ds, c ≠ '.') (t : Str) :
    afterFirstDot (ds ++ '.' :: t) = t := by
  induction ds with
  | nil => simp [afterFirstDot]
  | cons c cs ih =>
    simp only [List.cons_append, afterFirstDot,
      if_neg (h c (List.mem_cons_self _ _))]
    exact ih (fun x hx => h x (List.mem_cons_of_mem _ hx)) 

lemma pyStrip_space_cons {t : Str} (ht : cleanStr t = true) :
    pyStrip (' ' :: t) = t := by
  obtain ⟨h1, h2⟩ := cleanStr_parts ht
  have hdw : (' ' :: t).dropWhile pyIsSpace = t.dropWhile pyIsSpace := by
    simp [List.dropWhile_cons, pyIsSpace]
  unfold pyStrip
  rw [hdw, dropWhile_headNotSpace h1, dropWhile_headNotSpace h2,
    List.reverse_reverse]

lemma numberedLine_clean {k : Nat} {t : Str} (hk : 1 ≤ k)
    (ht : cleanStr t = true) :
    cleanStr (natDigits k ++ '.' :: ' ' :: t) = true := by
  obtain ⟨c, ds, hds⟩ : ∃ c ds, natDigits k = c :: ds := by
    cases hnd : natDigits k with
    | nil => exact absurd hnd (natDigits_ne_nil hk)
    | cons c ds => exact ⟨c, ds, rfl⟩
  have hcmem : c ∈ natDigits k := by
    rw [hds]
    exact List.mem_cons_self _ _
  refine cleanStr_append_of ?_ ?_
  · rw [hds]
    simp [headNotSpace, (natDigits_all c hcmem).2.1]
  · exact headNotSpace_reverse_cons '.' (List.cons_ne_nil _ _)
      (headNotSpace_reverse_cons ' ' (cleanStr_ne_nil ht) (cleanStr_parts ht).2)

lemma parseStep_numbered (acc : List Str) (cur : Str) {k : Nat} {t : Str}
    (hk : 1 ≤ k) (ht : cleanStr t = true) :
    parseStep (acc, cur) (natDigits k ++ '.' :: ' ' :: t)
      = (flushState (acc, cur), t) := by
  obtain ⟨c, ds, hds⟩ : ∃ c ds, natDigits k = c :: ds := by
    cases hnd : natDigits k with
    | nil => exact absurd hnd (natDigits_ne_nil hk)
    | cons c ds => exact ⟨c, ds, rfl⟩
  have hcmem : c ∈ natDigits k := by
    rw [hds]
    exact List.mem_cons_self _ _
  have hstrip := pyStrip_of_clean (numberedLine_clean hk ht)
  have hnum : isNumberedLine (natDigits k ++ '.' :: ' ' :: t) = true := by
    rw [hds, List.cons_append]
    exact isNumberedLine_cons _ (natDigits_all c hcmem).1
  have hdot : ('.' : Char) ∈ natDigits k ++ '.' :: ' ' :: t :=
    List.mem_append.mpr (Or.inr (List.mem_cons_self _ _))
  have hafter : afterFirstDot (natDigits k ++ '.' :: ' ' :: t) = ' ' :: t :=
    afterFirstDot_append (fun x hx => (natDigits_all x hx).2.2.1) _
  unfold parseStep
  simp only [hstrip, hnum, if_true, removeNumberMark, if_pos hdot, hafter,
    pyStrip_space_cons ht]

lemma flushState_clean {acc : List Str} {cur : Str} (h : cleanStr cur = true) :
    flushState (acc, cur) = acc ++ [cur] := by
  unfold flushState
  rw [if_neg (cleanStr_ne_nil h), pyStrip_of_clean h]

lemma foldl_conts {conts : List Str} (hconts : ∀ c ∈ conts, goodCont c) :
    ∀ (acc : List Str) (cur : Str) (rest : List Str), cleanStr cur = true →
      List.foldl parseStep (acc, cur) (conts ++ rest)
        = List.foldl parseStep (acc, cur ++ joinConts conts) rest := by
  induction conts with
  | nil => intro acc cur rest _; simp [joinConts]
  | cons c cs ih =>
    intro acc cur rest hcur
    obtain ⟨hcclean, _hnl, hcnd⟩ := (goodCont_iff c).mp (hconts c (List.mem_cons_self _ _))
    have hstep : parseStep (acc, cur) c = (acc, cur ++ ' ' :: c) := by
      unfold parseStep
      simp only [pyStrip_of_clean hcclean, isNumberedLine_of_notDigit hcnd,
        Bool.false_eq_true, if_false]
      rw [if_pos ⟨cleanStr_ne_nil hcur, cleanStr_ne_nil hcclean⟩]
    rw [List.cons_append, List.foldl_cons, hstep,
      ih (fun x hx => hconts x (List.mem_cons_of_mem _ hx)) _ _ _
        (cleanStr_append_cons ' ' hcur hcclean),
      joinConts_cons, ← List.append_assoc]

lemma renderItems_props :
    ∀ {items : List (Str × List Str)}, wfItems items →
      ∀ (k : Nat), 1 ≤ k → ∀ m ∈ renderItems k items,
        cleanStr m = true ∧ ('\n' : Char) ∉ m := by
  intro items
  induction items with
  | nil => intro _ k _ m hm; simp [renderItems] at hm
  | cons it rest ih =>
    obtain ⟨t, conts⟩ := it
    intro hwf k hk m hm
    obtain ⟨⟨ht, htn⟩, hconts⟩ := hwf (t, conts) (List.mem_cons_self _ _)
    have hwfrest : wfItems rest := fun x hx => hwf x (List.mem_cons_of_mem _ hx)
    rw [show renderItems k ((t, conts) :: rest)
        = ((natDigits k ++ '.' :: ' ' :: t) :: conts) ++ renderItems (k + 1) rest
      from rfl] at hm
    rcases List.mem_append.mp hm with hm1 | hm2
    · rcases List.mem_cons.mp hm1 with rfl | hmc
      · refine ⟨numberedLine_clean hk ht, fun hin => ?_⟩
        rcases List.mem_append.mp hin with hd | hrest
        · exact absurd rfl (natDigits_all _ hd).2.2.2
        · rcases List.mem_cons.mp hrest with hdot | hrest'
          · cases hdot
          · rcases List.mem_cons.mp hrest' with hsp | hint
            · cases hsp
            · exact htn hint
      · obtain ⟨h1, h2, _⟩ := (goodCont_iff m).mp (hconts m hmc)
        exact ⟨h1, h2⟩
    · exact ih hwfrest (k + 1) (by omega) m hm2

lemma foldl_renderItems :
    ∀ {items : List (Str × List Str)}, wfItems items →
      ∀ (k : Nat) (acc : List Str) (cur : Str), 1 ≤ k →
        (cur = [] ∨ cleanStr cur = true) →
        flushState (List.foldl parseStep (acc, cur) (renderItems k items))
          = flushState (acc, cur) ++ items.map itemText := by
  intro items
  induction items with
  | nil => intro _ k acc cur _ _; simp [renderItems]
  | cons it rest ih =>
    obtain ⟨t, conts⟩ := it
    intro hwf k acc cur hk hcur
    obtain ⟨⟨ht, _⟩, hconts⟩ := hwf (t, conts) (List.mem_cons_self _ _)
    have hwfrest : wfItems rest := fun x hx => hwf x (List.mem_cons_of_mem _ hx)
    have hjoin : cleanStr (t ++ joinConts conts) = true :=
      cleanStr_joinConts ht (fun c hc => ((goodCont_iff c).mp (hconts c hc)).1)
    rw [show renderItems k ((t, conts) :: rest)
        = (natDigits k ++ '.' :: ' ' :: t) :: (conts ++ renderItems (k + 1) rest)
      from rfl]
    rw [List.foldl_cons, parseStep_numbered acc cur hk ht,
      foldl_conts hconts _ _ _ ht,
      ih hwfrest (k + 1) _ _ (by omega) (Or.inr hjoin),
      flushState_clean hjoin]
    simp [itemText, List.append_assoc]

/-- C3: for every well-formed batch response whose items are numbered `1..N`
in order (item `i` beginning on the line `"{i}. {text}"`, continuation lines
not starting with a digit), `parse_batch_summaries` with
`expected_count = N` returns exactly the `N` item texts in order, each with
the number removed and its continuation lines joined. -/
theorem parse_batch_summaries_wellformed (items : List (Str × List Str))
    (hwf : wfItems items) :
    parse_batch_summaries (renderText items) items.length = items.map itemText := by
  cases items with
  | nil => rfl
  | cons it rest =>
    obtain ⟨t, conts⟩ := it
    have hwf' : wfItems ((t, conts) :: rest) := hwf
    have hne : renderItems 1 ((t, conts) :: rest) ≠ [] := by
      rw [show renderItems 1 ((t, conts) :: rest)
          = (natDigits 1 ++ '.' :: ' ' :: t) :: (conts ++ renderItems 2 rest)
        from rfl]
      exact List.cons_ne_nil _ _
    have hprops := renderItems_props hwf' 1 (le_refl 1)
    unfold parse_batch_summaries renderText
    rw [pyStrip_of_clean (cleanStr_intercalateNL hne (fun m hm => (hprops m hm).1)),
      splitChar_intercalateNL hne (fun m hm => (hprops m hm).2),
      foldl_renderItems hwf' 1 [] [] (le_refl 1) (Or.inl rfl)]
    show (List.map itemText ((t, conts) :: rest)).take (((t, conts) :: rest).length) = _
    rw [← List.length_map ((t, conts) :: rest) itemText]
    exact List.take_length _

theorem parse_batch_summaries_wellformed_witness :
    parse_batch_summaries (renderText c3Items) 2
      = ["First summary. continued line".toList, "Second".toList] :=
  parse_batch_summaries_wellformed c3Items (by decide)
